import Mathlib

/-!
# PolyPot: polyphonic voice pool

A shallow embedding of `src/PolyPot.cpp` (classes `Voice`, `VoiceManager<max_voices>`,
the dispatcher `HandleMidiMessage` and the function `AudioCallback`) followed by theorems
about voice allocation, release by pitch, deactivation, mixing and output.

Conventions of the embedding.

* Member functions become functions that take the object state and return the new state
  (together with the returned value, if any).
* `float` is an abstract carrier `P.F` with the arithmetic the program uses; nothing is assumed
  about it except that converting the integer `0` to `float` compares equal to `0.f` and no other
  integer does.  The comparison `==` on floats is the operation `P.feq`, which need not be
  reflexive (NaN).
* The DaisySP primitives `Oscillator`, `Adsr` and `mtof`, and the libDaisy MIDI types, are not part
  of the source file; they are parameters collected in `DaisySP`.
* `Voice voices[max_voices]` is a list of voices whose length is `max_voices`.
* A counted loop `for(size_t i = 0; i < max_voices; i++)` is a recursive function on the index
  `i` that tests the guard `i < max_voices` as the source does; an additional structurally
  decreasing counter, started at `max_voices`, makes the recursion terminate.
-/

namespace PolyPot

/-- Segment selectors of the DaisySP envelope generator passed to `Adsr::SetTime`. -/
inductive AdsrSeg where
  | ADSR_SEG_IDLE
  | ADSR_SEG_ATTACK
  | ADSR_SEG_DECAY
  | ADSR_SEG_RELEASE
  deriving DecidableEq, Repr

/-- The external primitives used by `PolyPot.cpp`, taken as parameters: the `float` carrier with
its arithmetic and literals, `mtof`, and the DaisySP classes `Oscillator` and `Adsr` with the member
functions the program calls.  A member function that mutates its object returns the new object. -/
structure DaisySP where
  /-- The type `float`. -/
  F : Type
  /-- The literal `0.f`. -/
  zero : F
  /-- The literal `127.f`. -/
  c127 : F
  /-- The literal `0.75f`. -/
  c0_75 : F
  /-- The literal `0.5f`. -/
  c0_5 : F
  /-- The literal `1.01f`. -/
  c1_01 : F
  /-- The literal `0.005f`. -/
  c0_005 : F
  /-- The literal `0.2f`. -/
  c0_2 : F
  /-- Addition of floats. -/
  add : F → F → F
  /-- Multiplication of floats. -/
  mul : F → F → F
  /-- Division of floats. -/
  div : F → F → F
  /-- The comparison `==` of floats. -/
  feq : F → F → Bool
  /-- The conversion of a `uint8_t` to `float`. -/
  ofUInt8 : Nat → F
  /-- Only the integer zero converts to a float that compares equal to `0.f`. -/
  feq_ofUInt8_zero : ∀ n : Nat, feq (ofUInt8 n) zero = decide (n = 0)
  /-- The function `mtof` (MIDI note number to frequency). -/
  mtof : F → F
  /-- The class `Oscillator`. -/
  Oscillator : Type
  /-- The constant `Oscillator::WAVE_POLYBLEP_SQUARE`. -/
  WAVE_POLYBLEP_SQUARE : Nat
  /-- The member `Oscillator::Init(samplerate)`. -/
  osc_Init : Oscillator → F → Oscillator
  /-- The member `Oscillator::SetAmp(a)`. -/
  osc_SetAmp : Oscillator → F → Oscillator
  /-- The member `Oscillator::SetWaveform(wf)`. -/
  osc_SetWaveform : Oscillator → Nat → Oscillator
  /-- The member `Oscillator::SetFreq(f)`. -/
  osc_SetFreq : Oscillator → F → Oscillator
  /-- The member `Oscillator::Process()`: the sample and the advanced oscillator. -/
  osc_Process : Oscillator → F × Oscillator
  /-- The class `Adsr`. -/
  Adsr : Type
  /-- The member `Adsr::Init(samplerate)`. -/
  env_Init : Adsr → F → Adsr
  /-- The member `Adsr::SetSustainLevel(level)`. -/
  env_SetSustainLevel : Adsr → F → Adsr
  /-- The member `Adsr::SetTime(seg, time)`. -/
  env_SetTime : Adsr → AdsrSeg → F → Adsr
  /-- The member `Adsr::Process(gate)`: the amplitude and the advanced envelope generator. -/
  env_Process : Adsr → Bool → F × Adsr
  /-- The member `Adsr::IsRunning()`. -/
  env_IsRunning : Adsr → Bool

variable {P : DaisySP}

/-! ## class Voice -/

/-- The data members of `class Voice`. -/
structure Voice (P : DaisySP) where
  osc_ : P.Oscillator
  env_ : P.Adsr
  note_ : P.F
  velocity_ : P.F
  active_ : Bool
  env_gate_ : Bool
  atk_ : P.F
  dcy_ : P.F
  sus_ : P.F
  rel_ : P.F

namespace Voice

/-- The member `Voice::Init(samplerate)`. -/
def Init (v : Voice P) (samplerate : P.F) : Voice P :=
  let v := { v with active_ := false }
  let v := { v with osc_ := P.osc_Init v.osc_ samplerate }
  let v := { v with osc_ := P.osc_SetAmp v.osc_ P.c0_75 }
  let v := { v with osc_ := P.osc_SetWaveform v.osc_ P.WAVE_POLYBLEP_SQUARE }
  let v := { v with env_ := P.env_Init v.env_ samplerate }
  let v := { v with env_ := P.env_SetSustainLevel v.env_ P.c0_5 }
  let v := { v with env_ := P.env_SetTime v.env_ AdsrSeg.ADSR_SEG_ATTACK P.c1_01 }
  let v := { v with env_ := P.env_SetTime v.env_ AdsrSeg.ADSR_SEG_DECAY P.c0_005 }
  let v := { v with env_ := P.env_SetTime v.env_ AdsrSeg.ADSR_SEG_RELEASE P.c0_2 }
  v

/-- The member `Voice::Process()`: the returned sample and the voice afterwards. -/
def Process (v : Voice P) : P.F × Voice P :=
  if v.active_ then
    let r := P.env_Process v.env_ v.env_gate_
    let amp := r.1
    let v := { v with env_ := r.2 }
    let v := if !P.env_IsRunning v.env_ then { v with active_ := false } else v
    let o := P.osc_Process v.osc_
    let sig := o.1
    let v := { v with osc_ := o.2 }
    (P.mul (P.mul sig (P.div v.velocity_ P.c127)) amp, v)
  else
    (P.zero, v)

/-- The member `Voice::OnNoteOn(note, velocity, a, d, s, r)`. -/
def OnNoteOn (v : Voice P) (note velocity a d s r : P.F) : Voice P :=
  let v := { v with atk_ := a }
  let v := { v with dcy_ := d }
  let v := { v with sus_ := s }
  let v := { v with rel_ := r }
  let v := { v with env_ := P.env_SetSustainLevel v.env_ v.sus_ }
  let v := { v with env_ := P.env_SetTime v.env_ AdsrSeg.ADSR_SEG_ATTACK v.atk_ }
  let v := { v with env_ := P.env_SetTime v.env_ AdsrSeg.ADSR_SEG_DECAY v.dcy_ }
  let v := { v with env_ := P.env_SetTime v.env_ AdsrSeg.ADSR_SEG_RELEASE v.rel_ }
  let v := { v with note_ := note }
  let v := { v with velocity_ := velocity }
  let v := { v with osc_ := P.osc_SetFreq v.osc_ (P.mtof v.note_) }
  let v := { v with active_ := true }
  let v := { v with env_gate_ := true }
  v

/-- The member `Voice::OnNoteOff()`. -/
def OnNoteOff (v : Voice P) : Voice P :=
  { v with env_gate_ := false }

/-- The member `Voice::IsActive()`. -/
def IsActive (v : Voice P) : Bool := v.active_

/-- The member `Voice::GetNote()`. -/
def GetNote (v : Voice P) : P.F := v.note_

end Voice

/-! ## class VoiceManager -/

/-- The data member `Voice voices[max_voices]` of `class VoiceManager<max_voices>`. -/
structure VoiceManager (P : DaisySP) where
  voices : List (Voice P)

namespace VoiceManager

/-- The template parameter `max_voices`: the length of the array `voices`. -/
@[reducible] def max_voices (vm : VoiceManager P) : Nat := vm.voices.length

/-- The loop of `VoiceManager::Init`, from index `i` on. -/
def InitLoop (samplerate : P.F) : Nat → Nat → VoiceManager P → VoiceManager P
  | 0, _, vm => vm
  | fuel + 1, i, vm =>
    if h : i < vm.max_voices then
      InitLoop samplerate fuel (i + 1)
        ⟨vm.voices.set i (Voice.Init (vm.voices.get ⟨i, h⟩) samplerate)⟩
    else vm

/-- The member `VoiceManager::Init(samplerate)`. -/
def Init (vm : VoiceManager P) (samplerate : P.F) : VoiceManager P :=
  InitLoop samplerate vm.max_voices 0 vm

/-- The loop of `VoiceManager::Process`, from index `i` on with the running `sum`. -/
def ProcessLoop : Nat → Nat → P.F → VoiceManager P → P.F × VoiceManager P
  | 0, _, sum, vm => (sum, vm)
  | fuel + 1, i, sum, vm =>
    if h : i < vm.max_voices then
      let r := Voice.Process (vm.voices.get ⟨i, h⟩)
      ProcessLoop fuel (i + 1) (P.add sum r.1) ⟨vm.voices.set i r.2⟩
    else (sum, vm)

/-- The member `VoiceManager::Process()`: the mixed sample and the pool afterwards. -/
def Process (vm : VoiceManager P) : P.F × VoiceManager P :=
  ProcessLoop vm.max_voices 0 P.zero vm

/-- The loop of `VoiceManager::FindFreeVoice`, from index `i` on; the returned pointer
`&voices[i]` is the index `i`, and `NULL` is `none`. -/
def FindFreeVoiceLoop (vm : VoiceManager P) : Nat → Nat → Option (Fin vm.max_voices)
  | 0, _ => none
  | fuel + 1, i =>
    if h : i < vm.max_voices then
      if !(vm.voices.get ⟨i, h⟩).IsActive then some ⟨i, h⟩
      else FindFreeVoiceLoop vm fuel (i + 1)
    else none

/-- The member `VoiceManager::FindFreeVoice()`. -/
def FindFreeVoice (vm : VoiceManager P) : Option (Fin vm.max_voices) :=
  FindFreeVoiceLoop vm vm.max_voices 0

/-- The member `VoiceManager::OnNoteOn(notenumber, velocity, a, d, s, r)`. -/
def OnNoteOn (vm : VoiceManager P) (notenumber velocity a d s r : P.F) : VoiceManager P :=
  match vm.FindFreeVoice with
  | none => vm
  | some v => ⟨vm.voices.set v.1 (Voice.OnNoteOn (vm.voices.get v) notenumber velocity a d s r)⟩

/-- The loop of `VoiceManager::OnNoteOff`, from index `i` on. -/
def OnNoteOffLoop (notenumber : P.F) : Nat → Nat → VoiceManager P → VoiceManager P
  | 0, _, vm => vm
  | fuel + 1, i, vm =>
    if h : i < vm.max_voices then
      let v := vm.voices.get ⟨i, h⟩
      if v.IsActive && P.feq v.GetNote notenumber then
        OnNoteOffLoop notenumber fuel (i + 1) ⟨vm.voices.set i v.OnNoteOff⟩
      else
        OnNoteOffLoop notenumber fuel (i + 1) vm
    else vm

/-- The member `VoiceManager::OnNoteOff(notenumber, velocity)`. -/
def OnNoteOff (vm : VoiceManager P) (notenumber _velocity : P.F) : VoiceManager P :=
  OnNoteOffLoop notenumber vm.max_voices 0 vm

/-- The loop of `VoiceManager::FreeAllVoices`, from index `i` on. -/
def FreeAllVoicesLoop : Nat → Nat → VoiceManager P → VoiceManager P
  | 0, _, vm => vm
  | fuel + 1, i, vm =>
    if h : i < vm.max_voices then
      FreeAllVoicesLoop fuel (i + 1) ⟨vm.voices.set i (vm.voices.get ⟨i, h⟩).OnNoteOff⟩
    else vm

/-- The member `VoiceManager::FreeAllVoices()`. -/
def FreeAllVoices (vm : VoiceManager P) : VoiceManager P :=
  FreeAllVoicesLoop vm.max_voices 0 vm

end VoiceManager

/-! ## The MIDI dispatcher -/

/-- The enumeration `MidiMessageType` of libDaisy. -/
inductive MidiMessageType where
  | NoteOff
  | NoteOn
  | PolyphonicKeyPressure
  | ControlChange
  | ProgramChange
  | ChannelPressure
  | PitchBend
  | SystemCommon
  | SystemRealTime
  | ChannelMode
  | MessageLast
  deriving DecidableEq, Repr

/-- The struct `NoteOnEvent` of libDaisy; `note` and `velocity` are `uint8_t`. -/
structure NoteOnEvent where
  channel : Int
  note : Nat
  velocity : Nat
  deriving DecidableEq, Repr

/-- The struct `MidiEvent` of libDaisy, reduced to the members the dispatcher reads: the message
type, the channel and the two data bytes. -/
structure MidiEvent where
  type : MidiMessageType
  channel : Int
  data0 : Nat
  data1 : Nat
  deriving DecidableEq, Repr

/-- The member `MidiEvent::AsNoteOn()`: the note is the first data byte and the velocity is the
second. -/
def MidiEvent.AsNoteOn (m : MidiEvent) : NoteOnEvent :=
  { channel := m.channel, note := m.data0, velocity := m.data1 }

/-- The function `HandleMidiMessage(m, a, d, s, r)`, acting on the global `voice_handler`. -/
def HandleMidiMessage (voice_handler : VoiceManager P) (m : MidiEvent) (a d s r : P.F) :
    VoiceManager P :=
  match m.type with
  | MidiMessageType.NoteOn =>
    let p := m.AsNoteOn
    if P.feq (P.ofUInt8 p.velocity) P.zero then
      voice_handler.OnNoteOff (P.ofUInt8 p.note) (P.ofUInt8 p.velocity)
    else
      voice_handler.OnNoteOn (P.ofUInt8 p.note) (P.ofUInt8 p.velocity) a d s r
  | MidiMessageType.NoteOff =>
    let p := m.AsNoteOn
    voice_handler.OnNoteOff (P.ofUInt8 p.note) (P.ofUInt8 p.velocity)
  | _ => voice_handler

/-! ## The audio callback -/

/-- The loop of `AudioCallback`, from index `sample` on. The output buffers `out[0]` and `out[1]`
are the lists `out_left` and `out_right`, which hold at least `size` elements; the input buffers
are not read. -/
def AudioCallbackLoop (size : Nat) :
    Nat → Nat → VoiceManager P → List P.F → List P.F → VoiceManager P × List P.F × List P.F
  | 0, _, voice_handler, out_left, out_right => (voice_handler, out_left, out_right)
  | fuel + 1, sample, voice_handler, out_left, out_right =>
    if sample < size then
      let l := voice_handler.Process
      let out_left := out_left.set sample l.1
      let r := l.2.Process
      let out_right := out_right.set sample r.1
      AudioCallbackLoop size fuel (sample + 1) r.2 out_left out_right
    else (voice_handler, out_left, out_right)

/-- The function `AudioCallback(in, out, size)`, acting on the global `voice_handler`: the pool
afterwards and the contents of `out[0]` and `out[1]`. -/
def AudioCallback (voice_handler : VoiceManager P) (out_left out_right : List P.F) (size : Nat) :
    VoiceManager P × List P.F × List P.F :=
  AudioCallbackLoop size size 0 voice_handler out_left out_right

/-! ## Descriptions used in the statements -/

/-- The six arguments of one call of `OnNoteOn`. -/
structure NoteOnCall (P : DaisySP) where
  notenumber : P.F
  velocity : P.F
  a : P.F
  d : P.F
  s : P.F
  r : P.F

/-- The call `v.OnNoteOn(c.notenumber, c.velocity, c.a, c.d, c.s, c.r)`. -/
def Voice.start (v : Voice P) (c : NoteOnCall P) : Voice P :=
  v.OnNoteOn c.notenumber c.velocity c.a c.d c.s c.r

/-- A sequence of calls of `VoiceManager::OnNoteOn`, in order, with nothing in between. -/
def VoiceManager.OnNoteOnSeq (vm : VoiceManager P) (calls : List (NoteOnCall P)) :
    VoiceManager P :=
  calls.foldl (fun vm c => vm.OnNoteOn c.notenumber c.velocity c.a c.d c.s c.r) vm

/-- The effect of the body of the loop of `VoiceManager::OnNoteOff` on one voice. -/
def releaseIfMatch (notenumber : P.F) (v : Voice P) : Voice P :=
  if v.IsActive && P.feq v.GetNote notenumber then v.OnNoteOff else v

/-- The voice after one call of `Voice::Process`. -/
def Voice.advance (v : Voice P) : Voice P := v.Process.2

/-- The envelope generator after the four setter calls of `Voice::OnNoteOn`: the sustain level
and then the attack, decay and release times. -/
def reconfigure (e : P.Adsr) (a d s r : P.F) : P.Adsr :=
  P.env_SetTime
    (P.env_SetTime
      (P.env_SetTime (P.env_SetSustainLevel e s) AdsrSeg.ADSR_SEG_ATTACK a)
      AdsrSeg.ADSR_SEG_DECAY d)
    AdsrSeg.ADSR_SEG_RELEASE r

/-- The state of the integer oscillator of `demo`: a phase counter, a frequency, an amplitude and
a waveform selector. -/
structure DemoOsc where
  phase : Int
  freq : Int
  amp : Int
  wave : Nat
  deriving DecidableEq, Repr

/-- The state of the integer envelope generator of `demo`: the current level, whether it is
running, and the configured sustain level and segment times. -/
structure DemoAdsr where
  level : Nat
  running : Bool
  sustain : Int
  attack : Int
  decay : Int
  release : Int
  deriving DecidableEq, Repr

/-- An instance of the primitives over the integers, used to evaluate the model on concrete
inputs: the oscillator is a phase counter, the envelope rises by one per sample while the gate
is held and falls by one per sample after it, running until it reaches zero. -/
@[reducible] def demo : DaisySP where
  F := Int
  zero := 0
  c127 := 127
  c0_75 := 1
  c0_5 := 1
  c1_01 := 1
  c0_005 := 0
  c0_2 := 0
  add := fun x y => x + y
  mul := fun x y => x * y
  div := fun x y => x / y
  feq := fun x y => decide (x = y)
  ofUInt8 := fun n => (n : Int)
  feq_ofUInt8_zero := by intro n; simp
  mtof := fun n => 8 * n
  Oscillator := DemoOsc
  WAVE_POLYBLEP_SQUARE := 7
  osc_Init := fun _ _ => { phase := 0, freq := 100, amp := 1, wave := 0 }
  osc_SetAmp := fun o a => { o with amp := a }
  osc_SetWaveform := fun o w => { o with wave := w }
  osc_SetFreq := fun o f => { o with freq := f }
  osc_Process := fun o => (o.amp * o.phase, { o with phase := o.phase + o.freq })
  Adsr := DemoAdsr
  env_Init := fun _ _ =>
    { level := 0, running := false, sustain := 0, attack := 0, decay := 0, release := 0 }
  env_SetSustainLevel := fun e s => { e with sustain := s }
  env_SetTime := fun e seg t =>
    match seg with
    | AdsrSeg.ADSR_SEG_ATTACK => { e with attack := t }
    | AdsrSeg.ADSR_SEG_DECAY => { e with decay := t }
    | AdsrSeg.ADSR_SEG_RELEASE => { e with release := t }
    | AdsrSeg.ADSR_SEG_IDLE => e
  env_Process := fun e gate =>
    if gate then ((e.level + 1 : Nat), { e with level := e.level + 1, running := true })
    else ((e.level - 1 : Nat), { e with level := e.level - 1, running := decide (1 < e.level) })
  env_IsRunning := fun e => e.running

/-- A voice of the `demo` instance with the given note, velocity, active flag and gate; the
oscillator and the envelope generator are in their initial state. -/
def demoVoice (note velocity : Int) ( active gate : Bool) : Voice demo :=
  { osc_ := { phase := 0, freq := 100, amp := 1, wave := 7 }
    env_ := { level := 0, running := false, sustain := 0, attack := 0, decay := 0, release := 0 }
    note_ := note
    velocity_ := velocity
    active_ := active
    env_gate_ := gate
    atk_ := (0 : Int)
    dcy_ := (0 : Int)
    sus_ := (0 : Int)
    rel_ := (0 : Int) }

/-- A note-on call of the `demo` instance with the given note and velocity and the envelope
parameters attack 3, decay 2, sustain 1, release 4. -/
def demoCall (note velocity : Int) : NoteOnCall demo :=
  { notenumber := note, velocity := velocity, a := (3 : Int), d := (2 : Int), s := (1 : Int),
    r := (4 : Int) }

/-- A pool of two voices in an arbitrary state, as it may be before `Init`. -/
def demoPoolRaw : VoiceManager demo :=
  ⟨[demoVoice 60 100 true true, demoVoice 0 0 false true]⟩

/-- Three note-on calls: the notes 60, 64 and 67. -/
def demoCalls3 : List (NoteOnCall demo) :=
  [demoCall 60 100, demoCall 64 90, demoCall 67 80]

/-- A pool of three voices: slot 0 sounds note 60, slots 1 and 2 are inactive, and slot 2 still
stores note 64 from an earlier use. -/
def demoPoolMixed : VoiceManager demo :=
  ⟨[demoVoice 60 100 true true, demoVoice 0 0 false false, demoVoice 64 90 false false]⟩

/-- A pool of two voices, both active: slot 0 sounds note 60 and slot 1 sounds note 64. -/
def demoPoolFull : VoiceManager demo :=
  ⟨[demoVoice 60 100 true true, demoVoice 64 90 true false]⟩

/-- A freshly initialised voice started with note 60 and velocity 127. -/
def demoFresh : Voice demo :=
  ((demoVoice 0 0 false false).Init (48000 : Int)).OnNoteOn
    (60 : Int) (127 : Int) (3 : Int) (2 : Int) (1 : Int) (4 : Int)

/-- The voice `demoFresh` after three calls of `Voice::Process`: it is active, its gate is held
and its envelope has risen to level 3. -/
def demoSounding : Voice demo := Voice.advance^[3] demoFresh

/-- A freshly initialised pool of two voices after one note-on for note 60 with velocity 127. -/
def demoPoolPlaying : VoiceManager demo :=
  (demoPoolRaw.Init (48000 : Int)).OnNoteOn
    (60 : Int) (127 : Int) (3 : Int) (2 : Int) (1 : Int) (4 : Int)

/-- A pool of three voices in which slot 0 has become inactive again after sounding note 60,
slot 1 is inactive and slot 2 still sounds note 64. -/
def demoPoolIdle : VoiceManager demo :=
  ⟨[demoVoice 60 100 false false, demoVoice 0 0 false false, demoVoice 64 90 true true]⟩

theorem get_append_mid {α : Type} (pre suf : List α) (v : α)
    (h : pre.length < (pre ++ v :: suf).length) :
    (pre ++ v :: suf).get ⟨pre.length, h⟩ = v := by
  induction pre with
  | nil => rfl
  | cons x xs ih => simpa using ih (by simp)

theorem set_append_mid {α : Type} (pre suf : List α) (v w : α) :
    (pre ++ v :: suf).set pre.length w = pre ++ w :: suf := by
  induction pre with
  | nil => rfl
  | cons x xs ih => simp [ih]

/-! ## The search for a free voice -/

namespace VoiceManager

theorem FindFreeVoiceLoop_some (vm : VoiceManager P) (fuel : Nat) :
    ∀ (i : Nat) (k : Fin vm.max_voices), FindFreeVoiceLoop vm fuel i = some k →
      i ≤ k.1 ∧ (vm.voices.get k).active_ = false ∧
      ∀ (j : Nat) (hj : j < vm.max_voices), i ≤ j → j < k.1 →
        (vm.voices.get ⟨j, hj⟩).active_ = true := by
  induction fuel with
  | zero => intro i k h; simp [FindFreeVoiceLoop] at h
  | succ fuel ih =>
    intro i k h
    unfold FindFreeVoiceLoop at h
    by_cases hi : i < vm.max_voices
    · rw [dif_pos hi] at h
      by_cases ha : (vm.voices.get ⟨i, hi⟩).active_ = true
      · have hcond : (!(vm.voices.get ⟨i, hi⟩).IsActive) = false := by
          unfold Voice.IsActive; rw [ha]; rfl
        rw [hcond] at h
        simp only [Bool.false_eq_true, if_false] at h
        obtain ⟨h1, h2, h3⟩ := ih (i + 1) k h
        refine ⟨by omega, h2, ?_⟩
        intro j hj hij hjk
        by_cases hji : j = i
        · subst hji; exact ha
        · exact h3 j hj (by omega) hjk
      · have ha' : (vm.voices.get ⟨i, hi⟩).active_ = false := Bool.eq_false_iff.mpr ha
        have hcond : (!(vm.voices.get ⟨i, hi⟩).IsActive) = true := by
          unfold Voice.IsActive; rw [ha']; rfl
        rw [hcond] at h
        simp only [if_true, Option.some.injEq] at h
        subst h
        refine ⟨le_refl _, ha', ?_⟩
        intro j hj hij hjk
        simp at hjk
        omega
    · rw [dif_neg hi] at h
      simp at h

theorem FindFreeVoiceLoop_none (vm : VoiceManager P) (fuel : Nat) :
    ∀ (i : Nat), FindFreeVoiceLoop vm fuel i = none → vm.max_voices ≤ i + fuel →
      ∀ (j : Nat) (hj : j < vm.max_voices), i ≤ j →
        (vm.voices.get ⟨j, hj⟩).active_ = true := by
  induction fuel with
  | zero => intro i _ hle j hj hij; omega
  | succ fuel ih =>
    intro i h hle j hj hij
    unfold FindFreeVoiceLoop at h
    by_cases hi : i < vm.max_voices
    · rw [dif_pos hi] at h
      by_cases ha : (vm.voices.get ⟨i, hi⟩).active_ = true
      · have hcond : (!(vm.voices.get ⟨i, hi⟩).IsActive) = false := by
          unfold Voice.IsActive; rw [ha]; rfl
        rw [hcond] at h
        simp only [Bool.false_eq_true, if_false] at h
        by_cases hji : j = i
        · subst hji; exact ha
        · exact ih (i + 1) h (by omega) j hj (by omega)
      · have ha' : (vm.voices.get ⟨i, hi⟩).active_ = false := Bool.eq_false_iff.mpr ha
        have hcond : (!(vm.voices.get ⟨i, hi⟩).IsActive) = true := by
          unfold Voice.IsActive; rw [ha']; rfl
        rw [hcond] at h
        simp at h
    · omega

/-- With every voice active the search returns `NULL`. -/
theorem FindFreeVoice_full (vm : VoiceManager P)
    (hfull : ∀ v ∈ vm.voices, v.active_ = true) : vm.FindFreeVoice = none := by
  cases hk : vm.FindFreeVoice with
  | none => rfl
  | some k =>
    have h := (FindFreeVoiceLoop_some vm vm.max_voices 0 k hk).2.1
    have h2 := hfull (vm.voices.get k) (List.get_mem _ _ _)
    rw [h] at h2
    exact absurd h2 (by decide)

/-- The search returns the index `i` when voice `i` is inactive and every voice below it is
active. -/
theorem FindFreeVoice_lowest (vm : VoiceManager P) (i : Nat) (hi : i < vm.max_voices)
    (hfree : (vm.voices.get ⟨i, hi⟩).active_ = false)
    (hbelow : ∀ (j : Nat) (hj : j < vm.max_voices), j < i →
      (vm.voices.get ⟨j, hj⟩).active_ = true) :
    vm.FindFreeVoice = some ⟨i, hi⟩ := by
  cases hk : vm.FindFreeVoice with
  | none =>
    have h := FindFreeVoiceLoop_none vm vm.max_voices 0 hk (by omega) i hi (Nat.zero_le _)
    rw [hfree] at h
    exact absurd h (by decide)
  | some k =>
    obtain ⟨_, h2, h3⟩ := FindFreeVoiceLoop_some vm vm.max_voices 0 k hk
    have hki : k.1 = i := by
      rcases Nat.lt_trichotomy k.1 i with hlt | heq | hgt
      · have := hbelow k.1 k.2 hlt
        rw [show (⟨k.1, k.2⟩ : Fin vm.max_voices) = k from rfl, h2] at this
        exact absurd this (by decide)
      · exact heq
      · have := h3 i hi (Nat.zero_le _) hgt
        rw [hfree] at this
        exact absurd this (by decide)
    congr 1
    exact Fin.ext hki

/-- The effect of `OnNoteOn` when voice `i` is the lowest inactive voice. -/
theorem OnNoteOn_lowest (vm : VoiceManager P) (n vel a d s r : P.F) (i : Nat)
    (hi : i < vm.max_voices) (hfree : (vm.voices.get ⟨i, hi⟩).active_ = false)
    (hbelow : ∀ (j : Nat) (hj : j < vm.max_voices), j < i →
      (vm.voices.get ⟨j, hj⟩).active_ = true) :
    vm.OnNoteOn n vel a d s r =
      ⟨vm.voices.set i ((vm.voices.get ⟨i, hi⟩).OnNoteOn n vel a d s r)⟩ := by
  unfold OnNoteOn
  rw [FindFreeVoice_lowest vm i hi hfree hbelow]

/-- The effect of `OnNoteOn` when every voice is active: none. -/
theorem OnNoteOn_full (vm : VoiceManager P) (n vel a d s r : P.F)
    (hfull : ∀ v ∈ vm.voices, v.active_ = true) : vm.OnNoteOn n vel a d s r = vm := by
  unfold OnNoteOn
  rw [FindFreeVoice_full vm hfull]

/-! ## The loops over all voices -/

theorem InitLoop_append (samplerate : P.F) (suf : List (Voice P)) :
    ∀ (pre : List (Voice P)) (fuel : Nat), suf.length ≤ fuel →
      InitLoop samplerate fuel pre.length ⟨pre ++ suf⟩ =
        ⟨pre ++ suf.map (fun v => v.Init samplerate)⟩ := by
  induction suf with
  | nil =>
    intro pre fuel _
    cases fuel with
    | zero => simp [InitLoop]
    | succ fuel => simp [InitLoop]
  | cons v suf ih =>
    intro pre fuel hf
    cases fuel with
    | zero => simp at hf
    | succ fuel =>
      have h : pre.length < (pre ++ v :: suf).length := by simp
      unfold InitLoop
      rw [dif_pos h]
      simp only [get_append_mid, set_append_mid]
      have := ih (pre ++ [v.Init samplerate]) fuel (by simpa using hf)
      simpa using this

theorem Init_eq_map (vm : VoiceManager P) (samplerate : P.F) :
    vm.Init samplerate = ⟨vm.voices.map (fun v => v.Init samplerate)⟩ := by
  have := InitLoop_append samplerate vm.voices [] vm.voices.length (le_refl _)
  simpa [Init] using this

theorem ProcessLoop_append (suf : List (Voice P)) :
    ∀ (pre : List (Voice P)) (fuel : Nat) (sum : P.F), suf.length ≤ fuel →
      ProcessLoop fuel pre.length sum ⟨pre ++ suf⟩ =
        (suf.foldl (fun acc v => P.add acc v.Process.1) sum,
          ⟨pre ++ suf.map (fun v => v.Process.2)⟩) := by
  induction suf with
  | nil =>
    intro pre fuel sum _
    cases fuel with
    | zero => simp [ProcessLoop]
    | succ fuel => simp [ProcessLoop]
  | cons v suf ih =>
    intro pre fuel sum hf
    cases fuel with
    | zero => simp at hf
    | succ fuel =>
      have h : pre.length < (pre ++ v :: suf).length := by simp
      unfold ProcessLoop
      rw [dif_pos h]
      simp only [get_append_mid, set_append_mid]
      have := ih (pre ++ [v.Process.2]) fuel (P.add sum v.Process.1) (by simpa using hf)
      simpa using this

theorem Process_eq_fold (vm : VoiceManager P) :
    vm.Process =
      (vm.voices.foldl (fun acc v => P.add acc v.Process.1) P.zero,
        ⟨vm.voices.map (fun v => v.Process.2)⟩) := by
  have := ProcessLoop_append vm.voices [] vm.voices.length P.zero (le_refl _)
  simpa [Process] using this

theorem OnNoteOffLoop_append (notenumber : P.F) (suf : List (Voice P)) :
    ∀ (pre : List (Voice P)) (fuel : Nat), suf.length ≤ fuel →
      OnNoteOffLoop notenumber fuel pre.length ⟨pre ++ suf⟩ =
        ⟨pre ++ suf.map (releaseIfMatch notenumber)⟩ := by
  induction suf with
  | nil =>
    intro pre fuel _
    cases fuel with
    | zero => simp [OnNoteOffLoop]
    | succ fuel => simp [OnNoteOffLoop]
  | cons v suf ih =>
    intro pre fuel hf
    cases fuel with
    | zero => simp at hf
    | succ fuel =>
      have h : pre.length < (pre ++ v :: suf).length := by simp
      unfold OnNoteOffLoop
      rw [dif_pos h]
      simp only [get_append_mid, set_append_mid]
      have := ih (pre ++ [releaseIfMatch notenumber v]) fuel (by simpa using hf)
      by_cases hc : (v.IsActive && P.feq v.GetNote notenumber) = true
      · simp only [hc, if_true]
        simpa [releaseIfMatch, hc] using this
      · simp only [hc, if_false]
        simpa [releaseIfMatch, hc] using this

theorem OnNoteOff_eq_map (vm : VoiceManager P) (notenumber velocity : P.F) :
    vm.OnNoteOff notenumber velocity = ⟨vm.voices.map (releaseIfMatch notenumber)⟩ := by
  have := OnNoteOffLoop_append notenumber vm.voices [] vm.voices.length (le_refl _)
  simpa [OnNoteOff] using this

theorem FreeAllVoicesLoop_append (suf : List (Voice P)) :
    ∀ (pre : List (Voice P)) (fuel : Nat), suf.length ≤ fuel →
      FreeAllVoicesLoop fuel pre.length ⟨pre ++ suf⟩ =
        ⟨pre ++ suf.map Voice.OnNoteOff⟩ := by
  induction suf with
  | nil =>
    intro pre fuel _
    cases fuel with
    | zero => simp [FreeAllVoicesLoop]
    | succ fuel => simp [FreeAllVoicesLoop]
  | cons v suf ih =>
    intro pre fuel hf
    cases fuel with
    | zero => simp at hf
    | succ fuel =>
      have h : pre.length < (pre ++ v :: suf).length := by simp
      unfold FreeAllVoicesLoop
      rw [dif_pos h]
      simp only [get_append_mid, set_append_mid]
      have := ih (pre ++ [v.OnNoteOff]) fuel (by simpa using hf)
      simpa using this

theorem FreeAllVoices_eq_map (vm : VoiceManager P) :
    vm.FreeAllVoices = ⟨vm.voices.map Voice.OnNoteOff⟩ := by
  have := FreeAllVoicesLoop_append vm.voices [] vm.voices.length (le_refl _)
  simpa [FreeAllVoices] using this

/-! ## Sequences of note-on calls -/

theorem OnNoteOnSeq_nil (vm : VoiceManager P) : vm.OnNoteOnSeq [] = vm := rfl

theorem OnNoteOnSeq_cons (vm : VoiceManager P) (c : NoteOnCall P) (cs : List (NoteOnCall P)) :
    vm.OnNoteOnSeq (c :: cs) =
      (vm.OnNoteOn c.notenumber c.velocity c.a c.d c.s c.r).OnNoteOnSeq cs := rfl

theorem OnNoteOnSeq_full (calls : List (NoteOnCall P)) :
    ∀ (vm : VoiceManager P), (∀ v ∈ vm.voices, v.active_ = true) →
      vm.OnNoteOnSeq calls = vm := by
  induction calls with
  | nil => intro vm _; rfl
  | cons c cs ih =>
    intro vm hfull
    rw [OnNoteOnSeq_cons, OnNoteOn_full vm _ _ _ _ _ _ hfull]
    exact ih vm hfull

theorem OnNoteOn_append (pre suf : List (Voice P)) (v : Voice P) (n vel a d s r : P.F)
    (hpre : ∀ w ∈ pre, w.active_ = true) (hv : v.active_ = false) :
    (⟨pre ++ v :: suf⟩ : VoiceManager P).OnNoteOn n vel a d s r =
      ⟨pre ++ v.OnNoteOn n vel a d s r :: suf⟩ := by
  have hi : pre.length < (⟨pre ++ v :: suf⟩ : VoiceManager P).max_voices := by
    show pre.length < (pre ++ v :: suf).length
    simp
  have hget : (pre ++ v :: suf).get ⟨pre.length, hi⟩ = v := get_append_mid pre suf v hi
  rw [OnNoteOn_lowest ⟨pre ++ v :: suf⟩ n vel a d s r pre.length hi]
  · simp only [hget, set_append_mid]
  · simp only [hget, hv]
  · intro j hj hjlt
    have : (pre ++ v :: suf).get ⟨j, hj⟩ = pre.get ⟨j, hjlt⟩ := by
      simp [List.get_eq_getElem, List.getElem_append_left, hjlt]
    simp only [this]
    exact hpre _ (List.get_mem _ _ _)

theorem OnNoteOnSeq_append (suf : List (Voice P)) :
    ∀ (pre : List (Voice P)) (calls : List (NoteOnCall P)), suf.length ≤ calls.length →
      (∀ w ∈ pre, w.active_ = true) → (∀ w ∈ suf, w.active_ = false) →
      (⟨pre ++ suf⟩ : VoiceManager P).OnNoteOnSeq calls =
        ⟨pre ++ List.zipWith Voice.start suf calls⟩ := by
  induction suf with
  | nil =>
    intro pre calls _ hpre _
    have := OnNoteOnSeq_full calls ⟨pre⟩ hpre
    simpa using this
  | cons v suf ih =>
    intro pre calls hlen hpre hsuf
    cases calls with
    | nil => simp at hlen
    | cons c cs =>
      rw [OnNoteOnSeq_cons, OnNoteOn_append pre suf v _ _ _ _ _ _ hpre
        (hsuf v (List.mem_cons_self _ _))]
      have := ih (pre ++ [v.start c]) cs (by simpa using hlen)
        (by
          intro w hw
          rcases List.mem_append.mp hw with h | h
          · exact hpre w h
          · rw [List.mem_singleton.mp h]; rfl)
        (fun w hw => hsuf w (List.mem_cons_of_mem _ hw))
      simpa [Voice.start] using this

theorem zipWith_take_right {α β γ : Type} (f : α → β → γ) (l1 : List α) :
    ∀ (l2 : List β), List.zipWith f l1 (l2.take l1.length) = List.zipWith f l1 l2 := by
  induction l1 with
  | nil => intro l2; simp
  | cons x xs ih =>
    intro l2
    cases l2 with
    | nil => simp
    | cons y ys => simp [ih]

/-- The pool after `Init` and a sequence of at least `max_voices` note-on calls: slot `i` holds
the initialised voice started with the `i`-th call. -/
theorem Init_OnNoteOnSeq (vm : VoiceManager P) (samplerate : P.F) (calls : List (NoteOnCall P))
    (hN : vm.max_voices ≤ calls.length) :
    (vm.Init samplerate).OnNoteOnSeq calls =
      ⟨List.zipWith (fun v c => (v.Init samplerate).start c) vm.voices calls⟩ := by
  rw [Init_eq_map]
  have := OnNoteOnSeq_append (vm.voices.map (fun v => v.Init samplerate)) [] calls
    (by simpa using hN) (by simp)
    (by
      intro w hw
      obtain ⟨v, _, rfl⟩ := List.mem_map.mp hw
      rfl)
  simpa [List.zipWith_map_left] using this

theorem zipWith_getElem? {α β γ : Type} (f : α → β → γ) (l1 : List α) :
    ∀ (l2 : List β) (i : Nat), i < l1.length → l1.length ≤ l2.length →
      ∃ x y, l1[i]? = some x ∧ l2[i]? = some y ∧ (List.zipWith f l1 l2)[i]? = some (f x y) := by
  induction l1 with
  | nil => intro l2 i hi; simp at hi
  | cons x xs ih =>
    intro l2 i hi hlen
    cases l2 with
    | nil => simp at hlen
    | cons y ys =>
      cases i with
      | zero => exact ⟨x, y, by simp⟩
      | succ i =>
        obtain ⟨x', y', h1, h2, h3⟩ := ih ys i (by simpa using hi) (by simpa using hlen)
        exact ⟨x', y', by simpa using h1, by simpa using h2, by simpa using h3⟩

theorem countP_zipWith_start (samplerate : P.F) (l1 : List (Voice P)) :
    ∀ (l2 : List (NoteOnCall P)), l1.length ≤ l2.length →
      (List.zipWith (fun v c => (v.Init samplerate).start c) l1 l2).countP
        (fun v => v.active_) = l1.length := by
  induction l1 with
  | nil => intro l2 _; simp
  | cons x xs ih =>
    intro l2 hlen
    cases l2 with
    | nil => simp at hlen
    | cons y ys =>
      have h := ih ys (by simpa using hlen)
      have hact : ((x.Init samplerate).start y).active_ = true := rfl
      simp [List.countP_cons, hact, h]

/-- A note-on either leaves the pool unchanged or starts one voice that was inactive. -/
theorem OnNoteOn_cases (vm : VoiceManager P) (n vel a d s r : P.F) :
    vm.OnNoteOn n vel a d s r = vm ∨
    ∃ (i : Nat) (hi : i < vm.max_voices), (vm.voices.get ⟨i, hi⟩).active_ = false ∧
      vm.OnNoteOn n vel a d s r =
        ⟨vm.voices.set i ((vm.voices.get ⟨i, hi⟩).OnNoteOn n vel a d s r)⟩ := by
  unfold OnNoteOn
  cases hk : vm.FindFreeVoice with
  | none => exact Or.inl rfl
  | some k =>
    exact Or.inr ⟨k.1, k.2, (FindFreeVoiceLoop_some vm vm.max_voices 0 k hk).2.1, rfl⟩

/-- A note-on leaves every active voice as it is. -/
theorem OnNoteOn_active_unchanged (vm : VoiceManager P) (n vel a d s r : P.F) (i : Nat)
    (v : Voice P) (hv : vm.voices[i]? = some v) (hact : v.active_ = true) :
    (vm.OnNoteOn n vel a d s r).voices[i]? = some v := by
  rcases OnNoteOn_cases vm n vel a d s r with h | ⟨k, hk, hfree, h⟩
  · rw [h]; exact hv
  · rw [h]
    have hne : k ≠ i := by
      intro hki
      subst hki
      have hlt : k < vm.voices.length := hk
      rw [List.getElem?_eq_getElem hlt] at hv
      have : vm.voices.get ⟨k, hk⟩ = v := by
        rw [List.get_eq_getElem]
        exact Option.some.inj hv
      rw [this, hact] at hfree
      exact absurd hfree (by decide)
    show (vm.voices.set k _)[i]? = some v
    rw [List.getElem?_set_ne hne]
    exact hv

theorem exists_lowest_free (vm : VoiceManager P) (hfree : ∃ v ∈ vm.voices, v.active_ = false) :
    ∃ (i : Nat) (hi : i < vm.max_voices), (vm.voices.get ⟨i, hi⟩).active_ = false ∧
      (∀ (j : Nat) (hj : j < vm.max_voices), j < i →
        (vm.voices.get ⟨j, hj⟩).active_ = true) := by
  cases hk : vm.FindFreeVoice with
  | none =>
    obtain ⟨v, hv, hvf⟩ := hfree
    obtain ⟨j, hj⟩ := List.mem_iff_get.mp hv
    have h := FindFreeVoiceLoop_none vm vm.max_voices 0 hk (by omega) j.1 j.2 (Nat.zero_le _)
    rw [show (⟨j.1, j.2⟩ : Fin vm.voices.length) = j from rfl, hj, hvf] at h
    exact absurd h (by decide)
  | some k =>
    obtain ⟨_, h2, h3⟩ := FindFreeVoiceLoop_some vm vm.max_voices 0 k hk
    exact ⟨k.1, k.2, h2, fun j hj hjk => h3 j hj (Nat.zero_le _) hjk⟩

/-- The effect of `OnNoteOff` written out on the fields of each voice. -/
theorem OnNoteOff_eq_map_gate (vm : VoiceManager P) (n vel : P.F) :
    vm.OnNoteOff n vel =
      ⟨vm.voices.map (fun v =>
        if v.active_ = true ∧ P.feq v.note_ n = true then { v with env_gate_ := false }
        else v)⟩ := by
  rw [OnNoteOff_eq_map]
  congr 1
  apply List.map_congr_left
  intro v _
  unfold releaseIfMatch Voice.IsActive Voice.GetNote Voice.OnNoteOff
  simp only [Bool.and_eq_true]

/-- The active flags are the same before and after `OnNoteOff`. -/
theorem OnNoteOff_active (vm : VoiceManager P) (n vel : P.F) :
    (vm.OnNoteOff n vel).voices.map (fun v => v.active_)
      = vm.voices.map (fun v => v.active_) := by
  rw [OnNoteOff_eq_map, List.map_map]
  apply List.map_congr_left
  intro v _
  show (releaseIfMatch n v).active_ = v.active_
  unfold releaseIfMatch
  split <;> rfl

end VoiceManager

/-- The sample returned by `Voice::Process`: the product for an active voice, `0.f` for an
inactive one. -/
theorem Voice.Process_fst (v : Voice P) :
    v.Process.1 =
      if v.active_ = true then
        P.mul (P.mul (P.osc_Process v.osc_).1 (P.div v.velocity_ P.c127))
          (P.env_Process v.env_ v.env_gate_).1
      else P.zero := by
  unfold Voice.Process
  by_cases h : v.active_ = true
  · rw [if_pos h, if_pos h]
    cases hrun : P.env_IsRunning (P.env_Process v.env_ v.env_gate_).2 <;> simp [hrun]
  · rw [if_neg h, if_neg h]

theorem Voice.Process_of_inactive (v : Voice P) (hidle : v.active_ = false) :
    v.Process = (P.zero, v) := by
  unfold Voice.Process
  rw [hidle]
  rfl

theorem Voice.advance_iterate_of_inactive (v : Voice P) (hidle : v.active_ = false) (k : Nat) :
    Voice.advance^[k] v = v := by
  induction k with
  | zero => rfl
  | succ k ih =>
    rw [Function.iterate_succ_apply']
    rw [ih]
    unfold Voice.advance
    rw [Voice.Process_of_inactive v hidle]

/-- The voice after `Voice::Process` on an active voice: the envelope generator and the
oscillator are advanced once and the active flag is what `IsRunning()` reports. -/
theorem Voice.Process_snd_of_active (v : Voice P) (hact : v.active_ = true) :
    v.Process.2 =
      { v with
        env_ := (P.env_Process v.env_ v.env_gate_).2
        osc_ := (P.osc_Process v.osc_).2
        active_ := P.env_IsRunning (P.env_Process v.env_ v.env_gate_).2 } := by
  unfold Voice.Process
  rw [if_pos hact]
  cases hrun : P.env_IsRunning (P.env_Process v.env_ v.env_gate_).2 <;> simp [hrun, hact]

/-- The fields that `Voice::Process` never writes. -/
theorem Voice.Process_frame (v : Voice P) :
    v.Process.2.note_ = v.note_ ∧ v.Process.2.velocity_ = v.velocity_ ∧
    v.Process.2.env_gate_ = v.env_gate_ ∧ (v.active_ = false → v.Process.2.active_ = false) := by
  by_cases hact : v.active_ = true
  · rw [Voice.Process_snd_of_active v hact]
    exact ⟨rfl, rfl, rfl, fun h => by rw [hact] at h; exact absurd h (by decide)⟩
  · have hidle : v.active_ = false := Bool.eq_false_iff.mpr hact
    rw [Voice.Process_of_inactive v hidle]
    exact ⟨rfl, rfl, rfl, fun h => h⟩

/-- A note-on changes at most the voice at one index. -/
theorem VoiceManager.OnNoteOn_at_most_one (vm : VoiceManager P) (n vel a d s r : P.F) :
    ∃ i : Nat, ∀ j : Nat, j ≠ i → (vm.OnNoteOn n vel a d s r).voices[j]? = vm.voices[j]? := by
  rcases VoiceManager.OnNoteOn_cases vm n vel a d s r with h | ⟨k, _, _, h⟩
  · exact ⟨0, fun j _ => by rw [h]⟩
  · refine ⟨k, fun j hj => ?_⟩
    rw [h]
    show (vm.voices.set k _)[j]? = vm.voices[j]?
    rw [List.getElem?_set_ne (Ne.symm hj)]

theorem VoiceManager.OnNoteOn_max_voices (vm : VoiceManager P) (n vel a d s r : P.F) :
    (vm.OnNoteOn n vel a d s r).max_voices = vm.max_voices := by
  rcases VoiceManager.OnNoteOn_cases vm n vel a d s r with h | ⟨k, _, _, h⟩
  · rw [h]
  · rw [h]
    show (vm.voices.set k _).length = vm.voices.length
    rw [List.length_set]

/-- The sum of the samples of inactive voices, accumulated from `0.f`. -/
theorem foldl_Process_of_inactive (hzero : P.add P.zero P.zero = P.zero)
    (vs : List (Voice P)) (hidle : ∀ v ∈ vs, v.active_ = false) :
    vs.foldl (fun acc v => P.add acc v.Process.1) P.zero = P.zero := by
  induction vs with
  | nil => rfl
  | cons v vs ih =>
    rw [List.foldl_cons, Voice.Process_of_inactive v (hidle v (List.mem_cons_self _ _))]
    show List.foldl _ (P.add P.zero P.zero) vs = P.zero
    rw [hzero]
    exact ih (fun w hw => hidle w (List.mem_cons_of_mem _ hw))

theorem VoiceManager.Process_pool_of_inactive (hzero : P.add P.zero P.zero = P.zero)
    (vm : VoiceManager P) (hidle : ∀ v ∈ vm.voices, v.active_ = false) :
    vm.Process = (P.zero, vm) := by
  rw [VoiceManager.Process_eq_fold, foldl_Process_of_inactive hzero vm.voices hidle]
  have : ∀ v ∈ vm.voices, (fun v : Voice P => v.Process.2) v = id v := by
    intro v hv
    show v.Process.2 = v
    rw [Voice.Process_of_inactive v (hidle v hv)]
  rw [List.map_congr_left this, List.map_id]

/-! ## The claims -/

open VoiceManager

/-- C1 (capacity bound). Start from a freshly initialised pool, in which every voice is inactive,
and issue more than `max_voices` note-on calls with no `Process` in between. Afterwards the pool
still has `max_voices` voices and exactly `max_voices` of them are active; slot `i` holds the
initialised voice of slot `i` started with the arguments of the `i`-th call, so it is active and
stores the note and the velocity of that call; and the calls after the first `max_voices` create
no voice: the pool equals the one reached by the first `max_voices` calls alone. -/
theorem C1_capacity_bound (vm : VoiceManager P) (samplerate : P.F)
    (calls : List (NoteOnCall P)) (hN : vm.max_voices < calls.length) :
    (∀ v ∈ (vm.Init samplerate).voices, v.active_ = false) ∧
    ((vm.Init samplerate).OnNoteOnSeq calls).max_voices = vm.max_voices ∧
    ((vm.Init samplerate).OnNoteOnSeq calls).voices.countP (fun v => v.active_)
      = vm.max_voices ∧
    (∀ i : Nat, i < vm.max_voices → ∃ v0 c v,
      vm.voices[i]? = some v0 ∧ calls[i]? = some c ∧
      ((vm.Init samplerate).OnNoteOnSeq calls).voices[i]? = some v ∧
      v = (v0.Init samplerate).OnNoteOn c.notenumber c.velocity c.a c.d c.s c.r ∧
      v.active_ = true ∧ v.note_ = c.notenumber ∧ v.velocity_ = c.velocity) ∧
    (vm.Init samplerate).OnNoteOnSeq calls
      = (vm.Init samplerate).OnNoteOnSeq (calls.take vm.max_voices) := by
  have hle : vm.max_voices ≤ calls.length := Nat.le_of_lt hN
  have hr := Init_OnNoteOnSeq vm samplerate calls hle
  refine ⟨?_, ?_, ?_, ?_, ?_⟩
  · intro v hv
    rw [Init_eq_map] at hv
    obtain ⟨w, _, rfl⟩ := List.mem_map.mp hv
    rfl
  · rw [hr]
    show (List.zipWith _ vm.voices calls).length = vm.voices.length
    rw [List.length_zipWith]
    exact Nat.min_eq_left hle
  · rw [hr]
    exact countP_zipWith_start samplerate vm.voices calls hle
  · intro i hi
    obtain ⟨x, y, h1, h2, h3⟩ :=
      zipWith_getElem? (fun v c => (v.Init samplerate).start c) vm.voices calls i hi hle
    refine ⟨x, y, (x.Init samplerate).start y, h1, h2, ?_, rfl, rfl, rfl, rfl⟩
    rw [hr]
    exact h3
  · have hlen : vm.max_voices ≤ (calls.take vm.max_voices).length := by
      rw [List.length_take]
      exact Nat.le_min.mpr ⟨le_refl _, hle⟩
    rw [hr, Init_OnNoteOnSeq vm samplerate _ hlen]
    congr 1
    exact (zipWith_take_right _ vm.voices calls).symm

/-- Witness of C1: a pool of two voices and three note-on calls. -/
theorem C1_capacity_bound_witness :
    demoPoolRaw.max_voices < demoCalls3.length ∧
    ((demoPoolRaw.Init (48000 : Int)).OnNoteOnSeq demoCalls3).voices.countP
      (fun v => v.active_) = 2 ∧
    (demoPoolRaw.Init (48000 : Int)).OnNoteOnSeq demoCalls3
      = (demoPoolRaw.Init (48000 : Int)).OnNoteOnSeq (demoCalls3.take 2) :=
  ⟨by decide,
    (C1_capacity_bound demoPoolRaw (48000 : Int) demoCalls3 (by decide)).2.2.1,
    (C1_capacity_bound demoPoolRaw (48000 : Int) demoCalls3 (by decide)).2.2.2.2⟩

/-- C2 (allocation determinism). In a pool with at least one inactive voice there is an index `i`
whose voice is inactive while every voice at an index below `i` is active, the search for a free
voice returns `i`, and the note-on starts exactly that voice: the pool afterwards is the old pool
with slot `i` replaced by the started voice, which is active with its gate held, stores the note,
the velocity and the four envelope parameters of the call, and has its envelope generator
reconfigured and its oscillator tuned to `mtof(note)`; every other slot is as before. In
particular, whenever slot 0 is inactive (on an empty pool, or after slot 0 has become inactive
again, whatever the state of the higher slots) the note lands in slot 0: slot 0 is then active
and stores the note and the velocity, and the higher slots are unchanged. -/
theorem C2_allocation_lowest_free (vm : VoiceManager P) (n vel a d s r : P.F)
    (hfree : ∃ v ∈ vm.voices, v.active_ = false) :
    (∃ (i : Nat) (hi : i < vm.max_voices),
      (vm.voices.get ⟨i, hi⟩).active_ = false ∧
      (∀ (j : Nat) (hj : j < vm.max_voices), j < i →
        (vm.voices.get ⟨j, hj⟩).active_ = true) ∧
      vm.FindFreeVoice = some ⟨i, hi⟩ ∧
      vm.OnNoteOn n vel a d s r =
        ⟨vm.voices.set i ((vm.voices.get ⟨i, hi⟩).OnNoteOn n vel a d s r)⟩ ∧
      (∃ w : Voice P, (vm.OnNoteOn n vel a d s r).voices[i]? = some w ∧
        w.active_ = true ∧ w.env_gate_ = true ∧ w.note_ = n ∧ w.velocity_ = vel ∧
        w.atk_ = a ∧ w.dcy_ = d ∧ w.sus_ = s ∧ w.rel_ = r ∧
        w.env_ = reconfigure (vm.voices.get ⟨i, hi⟩).env_ a d s r ∧
        w.osc_ = P.osc_SetFreq (vm.voices.get ⟨i, hi⟩).osc_ (P.mtof n)) ∧
      (∀ j : Nat, j ≠ i → (vm.OnNoteOn n vel a d s r).voices[j]? = vm.voices[j]?)) ∧
    (∀ (v0 : Voice P) (rest : List (Voice P)), vm.voices = v0 :: rest → v0.active_ = false →
      vm.OnNoteOn n vel a d s r = ⟨v0.OnNoteOn n vel a d s r :: rest⟩ ∧
      (∃ w : Voice P, (vm.OnNoteOn n vel a d s r).voices[0]? = some w ∧
        w.active_ = true ∧ w.env_gate_ = true ∧ w.note_ = n ∧ w.velocity_ = vel) ∧
      (vm.OnNoteOn n vel a d s r).voices.tail = rest) := by
  constructor
  · obtain ⟨i, hi, h1, h2⟩ := exists_lowest_free vm hfree
    have hset := OnNoteOn_lowest vm n vel a d s r i hi h1 h2
    refine ⟨i, hi, h1, h2, FindFreeVoice_lowest vm i hi h1 h2, hset, ?_, ?_⟩
    · refine ⟨(vm.voices.get ⟨i, hi⟩).OnNoteOn n vel a d s r, ?_,
        rfl, rfl, rfl, rfl, rfl, rfl, rfl, rfl, rfl, rfl⟩
      rw [hset]
      exact List.getElem?_set_self hi
    · intro j hj
      rw [hset]
      exact List.getElem?_set_ne (Ne.symm hj)
  · intro v0 rest hvm h0
    have := OnNoteOn_append [] rest v0 n vel a d s r (by simp) h0
    cases vm with
    | mk voices =>
      simp only at hvm
      subst hvm
      have hres : (⟨v0 :: rest⟩ : VoiceManager P).OnNoteOn n vel a d s r
          = ⟨v0.OnNoteOn n vel a d s r :: rest⟩ := by simpa using this
      refine ⟨hres, ⟨v0.OnNoteOn n vel a d s r, ?_, rfl, rfl, rfl, rfl⟩, ?_⟩
      · rw [hres]; simp
      · rw [hres]; rfl

/-- Witness of C2: slot 0 of the pool is inactive, as are slots 1 and 2, and a note-on for
note 72 with velocity 90 arrives. -/
theorem C2_allocation_lowest_free_witness :
    (∃ v ∈ demoPoolIdle.voices, v.active_ = false) ∧
    demoPoolIdle.voices = demoVoice 60 100 false false :: demoPoolIdle.voices.tail ∧
    (demoVoice 60 100 false false).active_ = false ∧
    (∃ w : Voice demo,
      (demoPoolIdle.OnNoteOn (72 : Int) (90 : Int) (3 : Int) (2 : Int) (1 : Int)
        (4 : Int)).voices[0]? = some w ∧
      w.active_ = true ∧ w.env_gate_ = true ∧ w.note_ = (72 : Int) ∧
      w.velocity_ = (90 : Int)) ∧
    (demoPoolIdle.OnNoteOn (72 : Int) (90 : Int) (3 : Int) (2 : Int) (1 : Int)
      (4 : Int)).voices.tail = demoPoolIdle.voices.tail :=
  ⟨by decide, rfl, rfl,
    ((C2_allocation_lowest_free demoPoolIdle (72 : Int) (90 : Int) (3 : Int) (2 : Int) (1 : Int)
      (4 : Int) (by decide)).2 (demoVoice 60 100 false false) demoPoolIdle.voices.tail rfl
      rfl).2.1,
    ((C2_allocation_lowest_free demoPoolIdle (72 : Int) (90 : Int) (3 : Int) (2 : Int) (1 : Int)
      (4 : Int) (by decide)).2 (demoVoice 60 100 false false) demoPoolIdle.voices.tail rfl
      rfl).2.2⟩

/-- C3 (note-on with a full pool is dropped). When every voice of the pool is active, the search
for a free voice returns `NULL` and `OnNoteOn` returns the pool unchanged, whatever its
arguments. -/
theorem C3_note_on_full_pool_dropped (vm : VoiceManager P) (n vel a d s r : P.F)
    (hfull : ∀ v ∈ vm.voices, v.active_ = true) :
    vm.FindFreeVoice = none ∧ vm.OnNoteOn n vel a d s r = vm :=
  ⟨FindFreeVoice_full vm hfull, OnNoteOn_full vm n vel a d s r hfull⟩

/-- Witness of C3: a pool of two active voices. -/
theorem C3_note_on_full_pool_dropped_witness :
    (∀ v ∈ demoPoolFull.voices, v.active_ = true) ∧
    demoPoolFull.OnNoteOn (72 : Int) (90 : Int) (3 : Int) (2 : Int) (1 : Int) (4 : Int)
      = demoPoolFull :=
  ⟨by decide,
    (C3_note_on_full_pool_dropped demoPoolFull (72 : Int) (90 : Int) (3 : Int) (2 : Int)
      (1 : Int) (4 : Int) (by decide)).2⟩

/-- C4, as stated, fails: `Voice::Init` writes `active_ = false` unconditionally, so outside
`Voice::Process` an active voice becomes inactive when it is initialised, and with it
`VoiceManager::Init` turns the active slot 0 of the pool `demoPoolRaw` inactive without any
envelope generator being advanced. -/
theorem C4_init_deactivates_counterexample :
    (demoVoice 60 100 true true).active_ = true ∧
    ((demoVoice 60 100 true true).Init (48000 : Int)).active_ = false ∧
    demoPoolRaw.voices.map (fun v => v.active_) = [true, false] ∧
    (demoPoolRaw.Init (48000 : Int)).voices.map (fun v => v.active_) = [false, false] ∧
    ¬ (∀ (v : Voice demo) (samplerate : Int), v.active_ = true →
        (v.Init samplerate).active_ = true) := by
  refine ⟨by decide, by decide, by decide, by decide, ?_⟩
  intro h
  have h0 := h (demoVoice 60 100 true true) (48000 : Int) (by decide)
  revert h0
  decide

/-- C4, amended (deactivation by the envelope, or by initialisation). The active flag of a voice
turns from true to false only inside `Voice::Process` or inside `Voice::Init`. For an active
voice, the voice is inactive after `Voice::Process` exactly when the envelope generator,
advanced once with the current gate, reports `IsRunning() == false`; the pool's `Process`
applies `Voice::Process` to each voice. `Voice::Init` sets the flag to false whatever the state
of the voice, and `VoiceManager::Init` does so for every voice of the pool. `Voice::OnNoteOff`,
`VoiceManager::OnNoteOff` and `VoiceManager::FreeAllVoices` leave every active flag as it is,
`Voice::OnNoteOn` sets it to true, and `VoiceManager::OnNoteOn` leaves every active voice
untouched. -/
theorem C4_envelope_only_deactivation (P : DaisySP) :
    (∀ v : Voice P, v.active_ = true →
      (v.Process.2.active_ = false ↔
        P.env_IsRunning (P.env_Process v.env_ v.env_gate_).2 = false)) ∧
    (∀ (vm : VoiceManager P) (i : Nat) (v : Voice P), vm.voices[i]? = some v →
      vm.Process.2.voices[i]? = some v.Process.2) ∧
    (∀ v : Voice P, v.OnNoteOff.active_ = v.active_) ∧
    (∀ (vm : VoiceManager P) (n vel : P.F),
      (vm.OnNoteOff n vel).voices.map (fun v => v.active_)
        = vm.voices.map (fun v => v.active_)) ∧
    (∀ vm : VoiceManager P,
      vm.FreeAllVoices.voices.map (fun v => v.active_) = vm.voices.map (fun v => v.active_)) ∧
    (∀ (v : Voice P) (n vel a d s r : P.F), (v.OnNoteOn n vel a d s r).active_ = true) ∧
    (∀ (vm : VoiceManager P) (n vel a d s r : P.F) (i : Nat) (v : Voice P),
      vm.voices[i]? = some v → v.active_ = true →
      (vm.OnNoteOn n vel a d s r).voices[i]? = some v) ∧
    (∀ (v : Voice P) (samplerate : P.F), (v.Init samplerate).active_ = false) ∧
    (∀ (vm : VoiceManager P) (samplerate : P.F),
      ∀ v ∈ (vm.Init samplerate).voices, v.active_ = false) := by
  refine ⟨?_, ?_, ?_, ?_, ?_, ?_, ?_, ?_, ?_⟩
  · intro v hv
    unfold Voice.Process
    rw [if_pos hv]
    cases hrun : P.env_IsRunning (P.env_Process v.env_ v.env_gate_).2 <;> simp [hrun, hv]
  · intro vm i v hv
    rw [Process_eq_fold]
    simp [List.getElem?_map, hv]
  · intro v; rfl
  · intro vm n vel
    exact OnNoteOff_active vm n vel
  · intro vm
    rw [FreeAllVoices_eq_map, List.map_map]
    apply List.map_congr_left
    intro v _
    rfl
  · intro v n vel a d s r; rfl
  · intro vm n vel a d s r i v hv hact
    exact OnNoteOn_active_unchanged vm n vel a d s r i v hv hact
  · intro v samplerate; rfl
  · intro vm samplerate v hv
    rw [Init_eq_map] at hv
    obtain ⟨w, _, rfl⟩ := List.mem_map.mp hv
    rfl

/-- Witness of C4: an active voice whose gate has been released and whose envelope stops on the
next sample. -/
theorem C4_envelope_only_deactivation_witness :
    (demoVoice 60 100 true false).active_ = true ∧
    ((demoVoice 60 100 true false).Process.2.active_ = false ↔
      demo.env_IsRunning
        (demo.env_Process (demoVoice 60 100 true false).env_
          (demoVoice 60 100 true false).env_gate_).2 = false) :=
  ⟨by decide, (C4_envelope_only_deactivation demo).1 (demoVoice 60 100 true false) (by decide)⟩

/-- C5 (note-off by pitch). `VoiceManager::OnNoteOff(n, velocity)` replaces every voice that is
active and whose stored note compares equal to `n` by the same voice with `gate = false`, be it
one voice or several, and leaves every other voice (inactive, or storing a different note) as it
is; the number of voices is unchanged and the result does not depend on `velocity`. -/
theorem C5_note_off_by_pitch (vm : VoiceManager P) (n vel : P.F) :
    vm.OnNoteOff n vel =
      ⟨vm.voices.map (fun v =>
        if v.active_ = true ∧ P.feq v.note_ n = true then { v with env_gate_ := false }
        else v)⟩ ∧
    (vm.OnNoteOff n vel).max_voices = vm.max_voices ∧
    (∀ (i : Nat) (v : Voice P), vm.voices[i]? = some v →
      (v.active_ = true ∧ P.feq v.note_ n = true →
        (vm.OnNoteOff n vel).voices[i]? = some { v with env_gate_ := false }) ∧
      (¬ (v.active_ = true ∧ P.feq v.note_ n = true) →
        (vm.OnNoteOff n vel).voices[i]? = some v)) ∧
    (∀ vel' : P.F, vm.OnNoteOff n vel' = vm.OnNoteOff n vel) := by
  have hmap := OnNoteOff_eq_map_gate vm n vel
  refine ⟨hmap, ?_, ?_, ?_⟩
  · rw [hmap]
    show (List.map _ vm.voices).length = vm.voices.length
    rw [List.length_map]
  · intro i v hv
    rw [hmap]
    constructor
    · intro hc
      simp [List.getElem?_map, hv, hc]
    · intro hc
      simp only [List.getElem?_map, hv, Option.map_some', if_neg hc]
  · intro vel'
    rw [OnNoteOff_eq_map, OnNoteOff_eq_map]

/-- Witness of C5: slot 0 of the pool is active and stores note 60, and its gate is held. -/
theorem C5_note_off_by_pitch_witness :
    demoPoolFull.voices[0]? = some (demoVoice 60 100 true true) ∧
    ((demoVoice 60 100 true true).active_ = true ∧
      demo.feq (demoVoice 60 100 true true).note_ (60 : Int) = true) ∧
    (demoPoolFull.OnNoteOff (60 : Int) (0 : Int)).voices[0]?
      = some (demoVoice 60 100 true false) :=
  ⟨rfl, ⟨rfl, rfl⟩,
    ((C5_note_off_by_pitch demoPoolFull (60 : Int) (0 : Int)).2.2.1 0
      (demoVoice 60 100 true true) rfl).1 ⟨rfl, rfl⟩⟩

/-- C6 (note-off for an unmatched pitch). When no active voice stores a note that compares equal
to `n`, `VoiceManager::OnNoteOff(n, velocity)` returns the pool unchanged; inactive voices that
still store `n` do not matter. -/
theorem C6_note_off_unmatched (vm : VoiceManager P) (n vel : P.F)
    (hno : ∀ v ∈ vm.voices, v.active_ = true → P.feq v.note_ n = false) :
    vm.OnNoteOff n vel = vm := by
  rw [OnNoteOff_eq_map]
  cases vm with
  | mk voices =>
    congr 1
    have : ∀ v ∈ voices, releaseIfMatch n v = id v := by
      intro v hv
      unfold releaseIfMatch Voice.IsActive Voice.GetNote
      cases hact : v.active_ with
      | false => simp
      | true => simp [hno v hv hact]
    rw [List.map_congr_left this, List.map_id]

/-- Witness of C6: note 64 is stored only by an inactive voice of the pool. -/
theorem C6_note_off_unmatched_witness :
    (∀ v ∈ demoPoolMixed.voices, v.active_ = true → demo.feq v.note_ (64 : Int) = false) ∧
    (∃ v ∈ demoPoolMixed.voices, v.active_ = false ∧ demo.feq v.note_ (64 : Int) = true) ∧
    demoPoolMixed.OnNoteOff (64 : Int) (0 : Int) = demoPoolMixed :=
  ⟨by decide, by decide,
    C6_note_off_unmatched demoPoolMixed (64 : Int) (0 : Int) (by decide)⟩

/-- C7 (idle invariant). For an inactive voice, whatever it stores, `Voice::Process` returns
`0.f` and leaves the whole voice, oscillator and envelope generator included, unchanged. -/
theorem C7_idle_invariant (v : Voice P) (hidle : v.active_ = false) :
    v.Process = (P.zero, v) := by
  unfold Voice.Process
  rw [hidle]
  rfl

/-- Witness of C7: an inactive voice that still stores a note, a velocity and a held gate. -/
theorem C7_idle_invariant_witness :
    (demoVoice 60 100 false true).active_ = false ∧
    (demoVoice 60 100 false true).Process = ((0 : Int), demoVoice 60 100 false true) :=
  ⟨by decide, C7_idle_invariant (demoVoice 60 100 false true) (by decide)⟩

/-- C8 (mixing linearity). `VoiceManager::Process` returns the sum, accumulated from `0.f` in
index order with nothing else applied, of the samples returned by `Voice::Process` on each voice
of the pool, and the pool afterwards consists of each voice advanced by exactly one
`Voice::Process`; an active voice contributes its product, an inactive voice contributes
`0.f`. -/
theorem C8_mixing_linearity (vm : VoiceManager P) :
    vm.Process.1 = (vm.voices.map (fun v => v.Process.1)).foldl P.add P.zero ∧
    vm.Process.2 = ⟨vm.voices.map (fun v => v.Process.2)⟩ ∧
    vm.Process.1 =
      (vm.voices.map (fun v =>
        if v.active_ = true then
          P.mul (P.mul (P.osc_Process v.osc_).1 (P.div v.velocity_ P.c127))
            (P.env_Process v.env_ v.env_gate_).1
        else P.zero)).foldl P.add P.zero := by
  have h1 : vm.Process.1 = (vm.voices.map (fun v => v.Process.1)).foldl P.add P.zero := by
    rw [Process_eq_fold, List.foldl_map]
  refine ⟨h1, ?_, ?_⟩
  · rw [Process_eq_fold]
  · rw [h1]
    congr 1
    apply List.map_congr_left
    intro v _
    exact Voice.Process_fst v

/-- C9 (zero-velocity convention). `HandleMidiMessage` applied to a NoteOn message with
velocity 0 and pitch `p` yields the same pool as applied to a NoteOff message for pitch `p`:
every active voice whose stored note compares equal to `p` gets `gate = false`, every other
voice is unchanged, and no active flag changes, so no voice is started. -/
theorem C9_zero_velocity_note_on (vh : VoiceManager P) (m1 m2 : MidiEvent) (p : Nat)
    (a d s r : P.F)
    (h1 : m1.type = MidiMessageType.NoteOn) (hvel : m1.AsNoteOn.velocity = 0)
    (hp1 : m1.AsNoteOn.note = p)
    (h2 : m2.type = MidiMessageType.NoteOff) (hp2 : m2.AsNoteOn.note = p) :
    HandleMidiMessage vh m1 a d s r = HandleMidiMessage vh m2 a d s r ∧
    HandleMidiMessage vh m1 a d s r =
      ⟨vh.voices.map (fun v =>
        if v.active_ = true ∧ P.feq v.note_ (P.ofUInt8 p) = true then
          { v with env_gate_ := false }
        else v)⟩ ∧
    (HandleMidiMessage vh m1 a d s r).voices.map (fun v => v.active_)
      = vh.voices.map (fun v => v.active_) := by
  have e1 : HandleMidiMessage vh m1 a d s r = vh.OnNoteOff (P.ofUInt8 p) (P.ofUInt8 0) := by
    unfold HandleMidiMessage
    rw [h1]
    simp only [hvel, hp1, P.feq_ofUInt8_zero, decide_True, if_true]
  have e2 : HandleMidiMessage vh m2 a d s r
      = vh.OnNoteOff (P.ofUInt8 p) (P.ofUInt8 m2.AsNoteOn.velocity) := by
    unfold HandleMidiMessage
    rw [h2]
    simp only [hp2]
  refine ⟨?_, ?_, ?_⟩
  · rw [e1, e2, OnNoteOff_eq_map, OnNoteOff_eq_map]
  · rw [e1]
    exact OnNoteOff_eq_map_gate vh _ _
  · rw [e1]
    exact OnNoteOff_active vh _ _

/-- Witness of C9: a NoteOn with velocity 0 and a NoteOff with velocity 64, both for pitch 60,
on a pool whose slot 0 sounds note 60. -/
theorem C9_zero_velocity_note_on_witness :
    HandleMidiMessage demoPoolMixed ⟨MidiMessageType.NoteOn, 0, 60, 0⟩
        (3 : Int) (2 : Int) (1 : Int) (4 : Int)
      = HandleMidiMessage demoPoolMixed ⟨MidiMessageType.NoteOff, 0, 60, 64⟩
        (3 : Int) (2 : Int) (1 : Int) (4 : Int) :=
  (C9_zero_velocity_note_on demoPoolMixed ⟨MidiMessageType.NoteOn, 0, 60, 0⟩
    ⟨MidiMessageType.NoteOff, 0, 60, 64⟩ 60 (3 : Int) (2 : Int) (1 : Int) (4 : Int)
    rfl rfl rfl rfl rfl).1

/-- C10 (start postcondition). After `Voice::OnNoteOn(note, velocity, a, d, s, r)` on any voice,
active or not: the voice is active with the gate held, it stores the note, the velocity and the
four envelope parameters, its envelope generator is the previous one with the sustain level set
to `s` and then the attack, decay and release times set to `a`, `d` and `r`, and its oscillator
is the previous one with the frequency set to `mtof(note)`. -/
theorem C10_start_postcondition (v : Voice P) (note velocity a d s r : P.F) :
    (v.OnNoteOn note velocity a d s r).active_ = true ∧
    (v.OnNoteOn note velocity a d s r).env_gate_ = true ∧
    (v.OnNoteOn note velocity a d s r).note_ = note ∧
    (v.OnNoteOn note velocity a d s r).velocity_ = velocity ∧
    (v.OnNoteOn note velocity a d s r).atk_ = a ∧
    (v.OnNoteOn note velocity a d s r).dcy_ = d ∧
    (v.OnNoteOn note velocity a d s r).sus_ = s ∧
    (v.OnNoteOn note velocity a d s r).rel_ = r ∧
    (v.OnNoteOn note velocity a d s r).env_ =
      P.env_SetTime
        (P.env_SetTime
          (P.env_SetTime (P.env_SetSustainLevel v.env_ s) AdsrSeg.ADSR_SEG_ATTACK a)
          AdsrSeg.ADSR_SEG_DECAY d)
        AdsrSeg.ADSR_SEG_RELEASE r ∧
    (v.OnNoteOn note velocity a d s r).osc_ = P.osc_SetFreq v.osc_ (P.mtof note) :=
  ⟨rfl, rfl, rfl, rfl, rfl, rfl, rfl, rfl, rfl, rfl⟩

/-- C11 (stop frame). `Voice::OnNoteOff` sets the gate to false and changes nothing else: the
active flag, the note, the velocity, the stored envelope parameters, the oscillator and the
envelope generator are as before; calling it twice equals calling it once. -/
theorem C11_stop_frame (v : Voice P) :
    v.OnNoteOff = { v with env_gate_ := false } ∧
    v.OnNoteOff.env_gate_ = false ∧
    v.OnNoteOff.active_ = v.active_ ∧
    v.OnNoteOff.note_ = v.note_ ∧
    v.OnNoteOff.velocity_ = v.velocity_ ∧
    v.OnNoteOff.atk_ = v.atk_ ∧ v.OnNoteOff.dcy_ = v.dcy_ ∧
    v.OnNoteOff.sus_ = v.sus_ ∧ v.OnNoteOff.rel_ = v.rel_ ∧
    v.OnNoteOff.osc_ = v.osc_ ∧ v.OnNoteOff.env_ = v.env_ ∧
    v.OnNoteOff.OnNoteOff = v.OnNoteOff :=
  ⟨rfl, rfl, rfl, rfl, rfl, rfl, rfl, rfl, rfl, rfl, rfl, rfl⟩

/-- C12 (shape freeze, no stealing). `VoiceManager::OnNoteOn` keeps the number of voices and
changes the voice at no more than one index; every voice that was active before the call is
afterwards exactly as it was (note, velocity, gate, stored attack, decay, sustain and release,
envelope generator and oscillator), so the voice that changes, if any, was inactive, and a later
note-on with other knob values never alters a sounding voice. -/
theorem C12_shape_freeze (vm : VoiceManager P) (n vel a d s r : P.F) :
    (vm.OnNoteOn n vel a d s r).max_voices = vm.max_voices ∧
    (∃ i : Nat, ∀ j : Nat, j ≠ i →
      (vm.OnNoteOn n vel a d s r).voices[j]? = vm.voices[j]?) ∧
    (∀ (i : Nat) (v : Voice P), vm.voices[i]? = some v → v.active_ = true →
      (vm.OnNoteOn n vel a d s r).voices[i]? = some v) ∧
    (∀ (i : Nat) (v : Voice P), vm.voices[i]? = some v →
      (vm.OnNoteOn n vel a d s r).voices[i]? ≠ some v → v.active_ = false) := by
  refine ⟨OnNoteOn_max_voices vm n vel a d s r, OnNoteOn_at_most_one vm n vel a d s r,
    fun i v hv hact => OnNoteOn_active_unchanged vm n vel a d s r i v hv hact, ?_⟩
  intro i v hv hne
  cases hact : v.active_ with
  | false => rfl
  | true => exact absurd (OnNoteOn_active_unchanged vm n vel a d s r i v hv hact) hne

/-- Witness of C12: slot 0 of the pool sounds note 60 and a note-on for note 72 arrives with
other knob values. -/
theorem C12_shape_freeze_witness :
    demoPoolMixed.voices[0]? = some (demoVoice 60 100 true true) ∧
    (demoVoice 60 100 true true).active_ = true ∧
    (demoPoolMixed.OnNoteOn (72 : Int) (90 : Int) (9 : Int) (8 : Int) (7 : Int)
      (6 : Int)).voices[0]? = some (demoVoice 60 100 true true) :=
  ⟨rfl, rfl,
    (C12_shape_freeze demoPoolMixed (72 : Int) (90 : Int) (9 : Int) (8 : Int) (7 : Int)
      (6 : Int)).2.2.1 0 (demoVoice 60 100 true true) rfl rfl⟩

/-- C13 (free all voices). `VoiceManager::FreeAllVoices` replaces every voice of the pool,
active or not, by the same voice with `gate = false` and changes nothing else: the number of
voices and every active flag, note and velocity are as before. -/
theorem C13_free_all_voices (vm : VoiceManager P) :
    vm.FreeAllVoices = ⟨vm.voices.map (fun v => { v with env_gate_ := false })⟩ ∧
    vm.FreeAllVoices.max_voices = vm.max_voices ∧
    (∀ v ∈ vm.FreeAllVoices.voices, v.env_gate_ = false) ∧
    vm.FreeAllVoices.voices.map (fun v => (v.active_, v.note_, v.velocity_))
      = vm.voices.map (fun v => (v.active_, v.note_, v.velocity_)) := by
  have h : vm.FreeAllVoices = ⟨vm.voices.map (fun v => { v with env_gate_ := false })⟩ := by
    rw [FreeAllVoices_eq_map]
    rfl
  refine ⟨h, ?_, ?_, ?_⟩
  · rw [h]
    show (List.map _ vm.voices).length = vm.voices.length
    rw [List.length_map]
  · intro v hv
    rw [h] at hv
    obtain ⟨w, _, rfl⟩ := List.mem_map.mp hv
    rfl
  · rw [h, List.map_map]
    apply List.map_congr_left
    intro v _
    rfl

/-- C14 (active sample formula). For an active voice `Voice::Process` advances the envelope
generator once with the current gate, advances the oscillator once, and returns
`osc_output * (velocity / 127) * envelope_amplitude`; afterwards the voice is active exactly
when the advanced envelope generator is running, and nothing else has changed. The product is
returned also on the call that deactivates the voice; every later call returns `0.f`. -/
theorem C14_active_sample (v : Voice P) (hact : v.active_ = true) :
    v.Process.1 =
      P.mul (P.mul (P.osc_Process v.osc_).1 (P.div v.velocity_ P.c127))
        (P.env_Process v.env_ v.env_gate_).1 ∧
    v.Process.2 =
      { v with
        env_ := (P.env_Process v.env_ v.env_gate_).2
        osc_ := (P.osc_Process v.osc_).2
        active_ := P.env_IsRunning (P.env_Process v.env_ v.env_gate_).2 } ∧
    (P.env_IsRunning (P.env_Process v.env_ v.env_gate_).2 = false →
      v.Process.2.active_ = false ∧
      ∀ k : Nat, (Voice.advance^[k] v.Process.2).Process.1 = P.zero) := by
  have h2 := Voice.Process_snd_of_active v hact
  refine ⟨?_, h2, ?_⟩
  · rw [Voice.Process_fst, if_pos hact]
  · intro hrun
    have hoff : v.Process.2.active_ = false := by
      rw [h2]
      exact hrun
    refine ⟨hoff, fun k => ?_⟩
    rw [Voice.advance_iterate_of_inactive _ hoff k, Voice.Process_of_inactive _ hoff]

/-- Witness of C14: an active voice with velocity 127 whose gate has been released and whose
envelope stops on this sample. -/
theorem C14_active_sample_witness :
    (demoVoice 60 127 true false).active_ = true ∧
    (demoVoice 60 127 true false).Process.1 =
      demo.mul (demo.mul (demo.osc_Process (demoVoice 60 127 true false).osc_).1
          (demo.div (demoVoice 60 127 true false).velocity_ demo.c127))
        (demo.env_Process (demoVoice 60 127 true false).env_
          (demoVoice 60 127 true false).env_gate_).1 :=
  ⟨rfl, (C14_active_sample (demoVoice 60 127 true false) rfl).1⟩

/-- C16 evaluated on the code. `AudioCallback` calls `voice_handler.Process()` once for
`out_left[sample]` and once more for `out_right[sample]`: with one sample slot the left channel
gets the first sample, the right channel gets the sample after it, and the pool has advanced by
two samples. On the pool `demoPoolPlaying` with two sample slots the left channel receives
0 and 2880 and the right channel receives 960 and 5760, so the two channels differ at both
indices. -/
theorem C16_audio_callback_two_calls :
    (∀ (Q : DaisySP) (vh : VoiceManager Q) (l0 r0 : Q.F),
      AudioCallback vh [l0] [r0] 1
        = (vh.Process.2.Process.2, [vh.Process.1], [vh.Process.2.Process.1])) ∧
    (AudioCallback demoPoolPlaying [(0 : Int), (0 : Int)] [(0 : Int), (0 : Int)] 2).2
      = ([(0 : Int), (2880 : Int)], [(960 : Int), (5760 : Int)]) ∧
    (AudioCallback demoPoolPlaying [(0 : Int), (0 : Int)] [(0 : Int), (0 : Int)] 2).2.1
      ≠ (AudioCallback demoPoolPlaying [(0 : Int), (0 : Int)] [(0 : Int), (0 : Int)] 2).2.2 := by
  refine ⟨fun Q vh l0 r0 => rfl, by decide, by decide⟩

/-- C17 (silence when nothing sounds). Given that `0.f + 0.f` is `0.f`, `VoiceManager::Process`
on a pool without an active voice returns `0.f` and leaves the whole pool unchanged; right after
`VoiceManager::Init` every voice is inactive, so this is the case there. -/
theorem C17_silence_when_idle (hzero : P.add P.zero P.zero = P.zero) :
    (∀ vm : VoiceManager P, (∀ v ∈ vm.voices, v.active_ = false) →
      vm.Process = (P.zero, vm)) ∧
    (∀ (vm : VoiceManager P) (samplerate : P.F),
      (∀ v ∈ (vm.Init samplerate).voices, v.active_ = false) ∧
      (vm.Init samplerate).Process = (P.zero, vm.Init samplerate)) := by
  have hinit : ∀ (vm : VoiceManager P) (samplerate : P.F),
      ∀ v ∈ (vm.Init samplerate).voices, v.active_ = false := by
    intro vm samplerate v hv
    rw [Init_eq_map] at hv
    obtain ⟨w, _, rfl⟩ := List.mem_map.mp hv
    rfl
  refine ⟨fun vm hidle => VoiceManager.Process_pool_of_inactive hzero vm hidle, ?_⟩
  intro vm samplerate
  exact ⟨hinit vm samplerate,
    VoiceManager.Process_pool_of_inactive hzero _ (hinit vm samplerate)⟩

/-- Witness of C17: the pool of two voices right after `Init`. -/
theorem C17_silence_when_idle_witness :
    demo.add demo.zero demo.zero = demo.zero ∧
    (demoPoolRaw.Init (48000 : Int)).Process
      = ((0 : Int), demoPoolRaw.Init (48000 : Int)) :=
  ⟨rfl, ((C17_silence_when_idle rfl).2 demoPoolRaw (48000 : Int)).2⟩

/-- C18 (dispatch of the remaining message kinds). `HandleMidiMessage` leaves the pool unchanged
for a message whose type is neither NoteOn nor NoteOff, and for a NoteOn message with non-zero
velocity it is exactly `voice_handler.OnNoteOn(note, velocity, a, d, s, r)` with the note and
velocity of the message and the `a`, `d`, `s`, `r` passed to it. -/
theorem C18_dispatch_other_kinds (vh : VoiceManager P) (m : MidiEvent) (a d s r : P.F) :
    (m.type ≠ MidiMessageType.NoteOn → m.type ≠ MidiMessageType.NoteOff →
      HandleMidiMessage vh m a d s r = vh) ∧
    (m.type = MidiMessageType.NoteOn → m.AsNoteOn.velocity ≠ 0 →
      HandleMidiMessage vh m a d s r =
        vh.OnNoteOn (P.ofUInt8 m.AsNoteOn.note) (P.ofUInt8 m.AsNoteOn.velocity) a d s r) := by
  constructor
  · intro h1 h2
    unfold HandleMidiMessage
    cases ht : m.type <;> simp_all
  · intro h1 hvel
    unfold HandleMidiMessage
    rw [h1]
    simp only [P.feq_ofUInt8_zero, hvel, decide_False, Bool.false_eq_true, if_false]

/-- Witness of C18: a control-change message, and a NoteOn for note 72 with velocity 90. -/
theorem C18_dispatch_other_kinds_witness :
    HandleMidiMessage demoPoolMixed ⟨MidiMessageType.ControlChange, 0, 72, 90⟩
        (3 : Int) (2 : Int) (1 : Int) (4 : Int) = demoPoolMixed ∧
    HandleMidiMessage demoPoolMixed ⟨MidiMessageType.NoteOn, 0, 72, 90⟩
        (3 : Int) (2 : Int) (1 : Int) (4 : Int)
      = demoPoolMixed.OnNoteOn (72 : Int) (90 : Int) (3 : Int) (2 : Int) (1 : Int) (4 : Int) :=
  ⟨(C18_dispatch_other_kinds demoPoolMixed ⟨MidiMessageType.ControlChange, 0, 72, 90⟩
      (3 : Int) (2 : Int) (1 : Int) (4 : Int)).1 (by decide) (by decide),
    (C18_dispatch_other_kinds demoPoolMixed ⟨MidiMessageType.NoteOn, 0, 72, 90⟩
      (3 : Int) (2 : Int) (1 : Int) (4 : Int)).2 rfl (by decide)⟩

/-- C19 (only a note-on activates a voice). Each of `VoiceManager::Process`,
`VoiceManager::OnNoteOff` and `VoiceManager::FreeAllVoices` keeps the number of voices and leaves
every inactive voice inactive, so the set of active voices can only shrink; the last two keep
every active flag as it is, and `VoiceManager::Process` keeps the stored note, velocity and gate
of every voice. -/
theorem C19_only_note_on_activates (vm : VoiceManager P) :
    (vm.Process.2.max_voices = vm.max_voices ∧
      ∀ (i : Nat) (v : Voice P), vm.voices[i]? = some v →
        ∃ w, vm.Process.2.voices[i]? = some w ∧ (v.active_ = false → w.active_ = false) ∧
          w.note_ = v.note_ ∧ w.velocity_ = v.velocity_ ∧ w.env_gate_ = v.env_gate_) ∧
    (∀ n vel : P.F, (vm.OnNoteOff n vel).max_voices = vm.max_voices ∧
      ∀ (i : Nat) (v : Voice P), vm.voices[i]? = some v →
        ∃ w, (vm.OnNoteOff n vel).voices[i]? = some w ∧ w.active_ = v.active_) ∧
    (vm.FreeAllVoices.max_voices = vm.max_voices ∧
      ∀ (i : Nat) (v : Voice P), vm.voices[i]? = some v →
        ∃ w, vm.FreeAllVoices.voices[i]? = some w ∧ w.active_ = v.active_) := by
  refine ⟨⟨?_, ?_⟩, fun n vel => ⟨?_, ?_⟩, ⟨?_, ?_⟩⟩
  · rw [Process_eq_fold]
    show (List.map _ vm.voices).length = vm.voices.length
    rw [List.length_map]
  · intro i v hv
    obtain ⟨h1, h2, h3, h4⟩ := Voice.Process_frame v
    refine ⟨v.Process.2, ?_, h4, h1, h2, h3⟩
    rw [Process_eq_fold]
    simp [List.getElem?_map, hv]
  · rw [OnNoteOff_eq_map]
    show (List.map _ vm.voices).length = vm.voices.length
    rw [List.length_map]
  · intro i v hv
    refine ⟨releaseIfMatch n v, ?_, ?_⟩
    · rw [OnNoteOff_eq_map]
      simp [List.getElem?_map, hv]
    · unfold releaseIfMatch
      split <;> rfl
  · rw [FreeAllVoices_eq_map]
    show (List.map _ vm.voices).length = vm.voices.length
    rw [List.length_map]
  · intro i v hv
    refine ⟨v.OnNoteOff, ?_, rfl⟩
    rw [FreeAllVoices_eq_map]
    simp [List.getElem?_map, hv]

/-- Witness of C19: slot 1 of the pool is inactive and stays so under `Process`. -/
theorem C19_only_note_on_activates_witness :
    demoPoolMixed.voices[1]? = some (demoVoice 0 0 false false) ∧
    ∃ w, demoPoolMixed.Process.2.voices[1]? = some w ∧
      ((demoVoice 0 0 false false).active_ = false → w.active_ = false) ∧
      w.note_ = (demoVoice 0 0 false false).note_ ∧
      w.velocity_ = (demoVoice 0 0 false false).velocity_ ∧
      w.env_gate_ = (demoVoice 0 0 false false).env_gate_ :=
  ⟨rfl, (C19_only_note_on_activates demoPoolMixed).1.2 1 (demoVoice 0 0 false false) rfl⟩

end PolyPot
